import Mathlib

/-!
# Verification of the x-rates scraper (src/main.py)

Shallow embedding of the data-handling core of `main.py`:

* `writing_all_file` — the per-currency merge of freshly fetched monthly
  rate records into the persisted historical table (incl. backup snapshot);
* the retry loop and per-year fetch skeleton of `main`;
* the line-parsing loop of `main` together with `extract_date`;
* `convert_price_for_uom` — unit-of-measure price conversion;
* `update_input_file` — the fetch-progress update.

Pandas tables are modelled as Lean lists of records; Python ints as `Int`
(or `Nat` where the source guarantees naturals); Python floats as `ℚ`
(the claims under study are branch-structural, not rounding claims).
Ambient reads of the current date (`datetime.now()`) are passed in as
explicit `currentYear`/`currentMonth` arguments.
-/

/-- A row of the historical table, as built in `main` (src/main.py:473-481):
`{'Currency 1', 'Currency 2', 'Year', 'Month', '<curr> to USD', 'USD to <curr>'}`. -/
structure RateRecord where
  currency1 : String
  currency2 : String
  year : Int
  month : Int
  rateToUSD : ℚ
  rateFromUSD : ℚ
  deriving Repr, DecidableEq

/-- The (year, month) key used by `drop_duplicates(subset=['Year','Month'])`
and `sort_values(by=['Year','Month'])` in `writing_all_file`. -/
def keyOf (r : RateRecord) : Int × Int := (r.year, r.month)

/-- src/main.py:354-369: scan the existing rows in order for the first row with
`int(row['Month']) == current_month and int(row['Year']) == current_year`,
and drop exactly that row (the loop `break`s at the first hit). -/
def removeCurrent (currentYear currentMonth : Int) : List RateRecord → List RateRecord
  | [] => []
  | r :: rs =>
      if r.month = currentMonth ∧ r.year = currentYear then rs
      else r :: removeCurrent currentYear currentMonth rs

/-- Keep-first deduplication by (Year, Month), as
`hist_df.drop_duplicates(subset=['Year','Month'])` (src/main.py:374) with the
default `keep='first'`: a row survives iff no earlier row has the same key.
`seen` accumulates the keys already emitted. -/
def dedupBy (seen : List (Int × Int)) : List RateRecord → List RateRecord
  | [] => []
  | r :: rs =>
      if keyOf r ∈ seen then dedupBy seen rs
      else r :: dedupBy (keyOf r :: seen) rs

/-- Keep-first `drop_duplicates(subset=['Year','Month'])` on a whole table. -/
def dedupByPeriod (l : List RateRecord) : List RateRecord := dedupBy [] l

/-- Non-strict lexicographic order on (Year, Month) keys. -/
def keyLexLe (p q : Int × Int) : Prop := p.1 < q.1 ∨ (p.1 = q.1 ∧ p.2 ≤ q.2)

/-- Strict lexicographic order on (Year, Month) keys. -/
def keyLexLt (p q : Int × Int) : Prop := p.1 < q.1 ∨ (p.1 = q.1 ∧ p.2 < q.2)

instance : DecidableRel keyLexLe := fun p q => by unfold keyLexLe; infer_instance

instance : DecidableRel keyLexLt := fun p q => by unfold keyLexLt; infer_instance

/-- Record `a` may precede `b` in the descending sort: `b`'s key is lex-≤ `a`'s key. -/
def recDescLe (a b : RateRecord) : Prop := keyLexLe (keyOf b) (keyOf a)

instance : DecidableRel recDescLe := fun a b => by unfold recDescLe; infer_instance

instance : IsTotal RateRecord recDescLe where
  total a b := by
    unfold recDescLe keyLexLe
    rcases lt_trichotomy (keyOf a).1 (keyOf b).1 with h | h | h
    · exact Or.inr (Or.inl h)
    · rcases le_total (keyOf a).2 (keyOf b).2 with h2 | h2
      · exact Or.inr (Or.inr ⟨h, h2⟩)
      · exact Or.inl (Or.inr ⟨h.symm, h2⟩)
    · exact Or.inl (Or.inl h)

instance : IsTrans RateRecord recDescLe where
  trans a b c hab hbc := by
    unfold recDescLe keyLexLe at *
    rcases hab with h1 | ⟨e1, m1⟩ <;> rcases hbc with h2 | ⟨e2, m2⟩
    · exact Or.inl (lt_trans h2 h1)
    · exact Or.inl (e2 ▸ h1)
    · exact Or.inl (e1 ▸ h2)
    · exact Or.inr ⟨e2.trans e1, le_trans m2 m1⟩

/-- Model of `sort_values(by=['Year','Month'], ascending=False)` (src/main.py:375,384):
sort descending by year, then by month.  Modelled by insertion sort with the
non-strict descending key order; on tables whose keys are pairwise distinct —
the only situations any claim below depends on record identities — every sort
by this key produces the same list. -/
def sortDescYM (l : List RateRecord) : List RateRecord := List.insertionSort recDescLe l

/-- Python `max(column)` on a nonempty column (src/main.py:378-379,387-388);
on an empty column Python raises, and `writing_all_file` is only reached with
a nonempty `df` (`if df.empty: continue`, src/main.py:486), so the default
for `[]` is never exercised by the program. -/
def listMax : List Int → Int
  | [] => 0
  | x :: xs => xs.foldl max x

/-- What one call of `writing_all_file` persists: the historical sheet for the
currency, plus the backup snapshot and the (month, year) its file name is
formed from (`f'{month} {year} All-Xrates-Data.xlsx'`). -/
structure MergeOutput where
  table : List RateRecord
  backup : List RateRecord
  backupName : Int × Int
  deriving Repr, DecidableEq

/-- Model of `writing_all_file(df, product)` (src/main.py:332-389), with the ambient
current date passed explicitly and the storage layer abstracted:
`existing? = some ex` is the `try` branch where
`pd.read_excel(..., sheet_name=product)` succeeds with table `ex`;
`existing? = none` is the `except` branch (no file / missing sheet /
unreadable), which sorts and persists `df` alone, without deduplication.
In the `try` branch: drop the first existing row matching the current
calendar (month, year); write the merged table
`concat([existing, df]).drop_duplicates(['Year','Month']).sort_values(desc)`;
write the post-drop pre-concat `existing_df` as the backup, named from
`max(df['Month'])` and `max(df['Year'])` (computed independently). -/
def writing_all_file (currentYear currentMonth : Int)
    (existing? : Option (List RateRecord)) (df : List RateRecord) : MergeOutput :=
  match existing? with
  | some ex =>
      let ex2 := removeCurrent currentYear currentMonth ex
      { table := sortDescYM (dedupByPeriod (ex2 ++ df))
        backup := ex2
        backupName := (listMax (df.map (·.month)), listMax (df.map (·.year))) }
  | none =>
      let sorted := sortDescYM df
      { table := sorted
        backup := sorted
        backupName := (listMax (df.map (·.month)), listMax (df.map (·.year))) }

/-- The claim predicate of C1: no two rows of the table share a (year, month). -/
def noDupPeriods (l : List RateRecord) : Prop := (l.map keyOf).Nodup

instance (l : List RateRecord) : Decidable (noDupPeriods l) := by
  unfold noDupPeriods; infer_instance

/-- The claim predicate of C4: strictly descending by year, then month. -/
def strictDescYM (l : List RateRecord) : Prop :=
  l.Pairwise (fun a b => keyLexLt (keyOf b) (keyOf a))

instance (l : List RateRecord) : Decidable (strictDescYM l) := by
  unfold strictDescYM; infer_instance

/-! ## Lemmas about `dedupBy`, `removeCurrent` and `sortDescYM` -/

theorem mem_of_mem_dedupBy :
    ∀ (l : List RateRecord) (seen : List (Int × Int)) (r : RateRecord),
      r ∈ dedupBy seen l → r ∈ l := by
  intro l
  induction l with
  | nil => intro seen r h; simp [dedupBy] at h
  | cons x xs ih =>
    intro seen r h
    by_cases hx : keyOf x ∈ seen
    · simp only [dedupBy, if_pos hx] at h
      exact List.mem_cons_of_mem x (ih seen r h)
    · simp only [dedupBy, if_neg hx, List.mem_cons] at h
      rcases h with h | h
      · exact h ▸ List.mem_cons_self x xs
      · exact List.mem_cons_of_mem x (ih _ r h)

theorem dedupBy_keys_nodup :
    ∀ (l : List RateRecord) (seen : List (Int × Int)),
      ((dedupBy seen l).map keyOf).Nodup ∧
        ∀ k ∈ (dedupBy seen l).map keyOf, k ∉ seen := by
  intro l
  induction l with
  | nil => intro seen; simp [dedupBy]
  | cons x xs ih =>
    intro seen
    by_cases hx : keyOf x ∈ seen
    · simpa only [dedupBy, if_pos hx] using ih seen
    · simp only [dedupBy, if_neg hx, List.map_cons, List.nodup_cons, List.mem_cons]
      obtain ⟨hnd, hdisj⟩ := ih (keyOf x :: seen)
      refine ⟨⟨fun hmem => ?_, hnd⟩, ?_⟩
      · exact (hdisj _ hmem) (List.mem_cons_self _ _)
      · rintro k (rfl | hk)
        · exact hx
        · exact fun hks => (hdisj k hk) (List.mem_cons_of_mem _ hks)

theorem noDupPeriods_dedupByPeriod (l : List RateRecord) :
    noDupPeriods (dedupByPeriod l) :=
  (dedupBy_keys_nodup l []).1

/-- The first record of `l` carrying key `p` survives keep-first deduplication
(provided `p` has not been emitted before, in particular for `seen = []`). -/
theorem find?_mem_dedupBy :
    ∀ (l : List RateRecord) (seen : List (Int × Int)) (p : Int × Int) (e : RateRecord),
      p ∉ seen → l.find? (fun r => decide (keyOf r = p)) = some e →
      e ∈ dedupBy seen l := by
  intro l
  induction l with
  | nil => intro seen p e _ h; simp at h
  | cons x xs ih =>
    intro seen p e hp hfind
    by_cases hxp : keyOf x = p
    · rw [List.find?_cons_of_pos _ (by simpa using hxp)] at hfind
      have hx : keyOf x ∉ seen := hxp ▸ hp
      simp only [dedupBy, if_neg hx]
      exact (Option.some.injEq _ _).mp hfind ▸ List.mem_cons_self x _
    · rw [List.find?_cons_of_neg _ (by simpa using hxp)] at hfind
      by_cases hx : keyOf x ∈ seen
      · simp only [dedupBy, if_pos hx]
        exact ih seen p e hp hfind
      · simp only [dedupBy, if_neg hx]
        refine List.mem_cons_of_mem x (ih (keyOf x :: seen) p e ?_ hfind)
        simp only [List.mem_cons]
        rintro (rfl | h)
        · exact hxp rfl
        · exact hp h

theorem keyOf_eq_iff (r : RateRecord) (cy cm : Int) :
    keyOf r = (cy, cm) ↔ r.year = cy ∧ r.month = cm := by
  unfold keyOf
  constructor
  · intro h; exact ⟨congrArg Prod.fst h, congrArg Prod.snd h⟩
  · rintro ⟨h1, h2⟩; simp [h1, h2]

theorem removeCurrent_sublist (cy cm : Int) :
    ∀ l : List RateRecord, (removeCurrent cy cm l).Sublist l := by
  intro l
  induction l with
  | nil => simp [removeCurrent]
  | cons x xs ih =>
    by_cases h : x.month = cm ∧ x.year = cy
    · simp only [removeCurrent, if_pos h]
      exact (List.sublist_cons_self x xs)
    · simp only [removeCurrent, if_neg h]
      exact List.Sublist.cons₂ x ih

theorem mem_removeCurrent_of_key_ne (cy cm : Int) :
    ∀ (l : List RateRecord) (r : RateRecord),
      r ∈ l → keyOf r ≠ (cy, cm) → r ∈ removeCurrent cy cm l := by
  intro l
  induction l with
  | nil => intro r h; simp at h
  | cons x xs ih =>
    intro r hr hk
    by_cases h : x.month = cm ∧ x.year = cy
    · simp only [removeCurrent, if_pos h]
      rcases List.mem_cons.mp hr with rfl | hr'
      · exact absurd ((keyOf_eq_iff r cy cm).mpr ⟨h.2, h.1⟩) hk
      · exact hr'
    · simp only [removeCurrent, if_neg h, List.mem_cons]
      rcases List.mem_cons.mp hr with rfl | hr'
      · exact Or.inl rfl
      · exact Or.inr (ih r hr' hk)

/-- On a table with pairwise-distinct periods, removing the (unique) row whose
period is the current calendar period leaves no row with that period. -/
theorem keys_removeCurrent_ne (cy cm : Int) :
    ∀ l : List RateRecord, (l.map keyOf).Nodup →
      ∀ r ∈ removeCurrent cy cm l, keyOf r ≠ (cy, cm) := by
  intro l
  induction l with
  | nil => intro _ r h; simp [removeCurrent] at h
  | cons x xs ih =>
    intro hnd r hr
    simp only [List.map_cons, List.nodup_cons] at hnd
    by_cases h : x.month = cm ∧ x.year = cy
    · simp only [removeCurrent, if_pos h] at hr
      intro hk
      have hx : keyOf x = (cy, cm) := (keyOf_eq_iff x cy cm).mpr ⟨h.2, h.1⟩
      exact hnd.1 (hx ▸ hk ▸ List.mem_map_of_mem keyOf hr)
    · simp only [removeCurrent, if_neg h, List.mem_cons] at hr
      rcases hr with rfl | hr'
      · intro hk
        exact h ⟨((keyOf_eq_iff r cy cm).mp hk).2, ((keyOf_eq_iff r cy cm).mp hk).1⟩
      · exact ih hnd.2 r hr'

theorem noDupPeriods_sortDescYM {l : List RateRecord} (h : noDupPeriods l) :
    noDupPeriods (sortDescYM l) :=
  (((List.perm_insertionSort recDescLe l).map keyOf).nodup_iff).mpr h

theorem mem_sortDescYM {l : List RateRecord} {r : RateRecord} :
    r ∈ sortDescYM l ↔ r ∈ l :=
  List.mem_insertionSort recDescLe

theorem keyLexLt_of_keyLexLe_ne {p q : Int × Int} (hle : keyLexLe p q) (hne : p ≠ q) :
    keyLexLt p q := by
  rcases hle with h | ⟨h1, h2⟩
  · exact Or.inl h
  · rcases lt_or_eq_of_le h2 with h2' | h2'
    · exact Or.inr ⟨h1, h2'⟩
    · exact absurd (Prod.ext h1 h2') hne

theorem strictDescYM_of_sorted_nodup :
    ∀ {l : List RateRecord}, l.Pairwise recDescLe → noDupPeriods l → strictDescYM l := by
  intro l
  induction l with
  | nil => intro _ _; exact List.Pairwise.nil
  | cons x xs ih =>
    intro hs hnd
    simp only [noDupPeriods, List.map_cons, List.nodup_cons] at hnd
    rcases List.pairwise_cons.mp hs with ⟨hx, hs'⟩
    refine List.pairwise_cons.mpr ⟨fun b hb => ?_, ih hs' hnd.2⟩
    refine keyLexLt_of_keyLexLe_ne (hx b hb) fun hkeys => ?_
    exact hnd.1 (hkeys ▸ List.mem_map_of_mem keyOf hb)

theorem strictDescYM_sortDescYM {l : List RateRecord} (h : noDupPeriods l) :
    strictDescYM (sortDescYM l) :=
  strictDescYM_of_sorted_nodup (List.sorted_insertionSort recDescLe l)
    (noDupPeriods_sortDescYM h)

theorem find?_append_of_left_none {p : RateRecord → Bool} :
    ∀ (l₁ l₂ : List RateRecord), (∀ x ∈ l₁, p x = false) →
      (l₁ ++ l₂).find? p = l₂.find? p := by
  intro l₁
  induction l₁ with
  | nil => intro l₂ _; simp
  | cons x xs ih =>
    intro l₂ h
    rw [List.cons_append, List.find?_cons_of_neg _ (by simp [h x (List.mem_cons_self x xs)]),
      ih l₂ (fun y hy => h y (List.mem_cons_of_mem x hy))]

theorem find?_append_of_left_some {p : RateRecord → Bool} {e : RateRecord} :
    ∀ (l₁ l₂ : List RateRecord), l₁.find? p = some e →
      (l₁ ++ l₂).find? p = some e := by
  intro l₁
  induction l₁ with
  | nil => intro l₂ h; simp at h
  | cons x xs ih =>
    intro l₂ h
    by_cases hx : p x = true
    · rw [List.find?_cons_of_pos _ hx] at h
      rw [List.cons_append, List.find?_cons_of_pos _ hx]
      exact h
    · rw [List.find?_cons_of_neg _ hx] at h
      rw [List.cons_append, List.find?_cons_of_neg _ hx]
      exact ih l₂ h

/-! ## C1 — uniqueness of periods after a merge -/

/-- C1, as stated, is false: in the `except` branch of `writing_all_file`
(src/main.py:382-389, taken on the first run for a currency) the new records
are sorted and persisted without `drop_duplicates`, so a fetched batch that
itself repeats a (year, month) is persisted with the duplicate intact. -/
theorem C1_counterexample :
    ¬ noDupPeriods (writing_all_file 2023 5 none
      [{ currency1 := "EUR", currency2 := "USD", year := 2023, month := 1,
         rateToUSD := 1, rateFromUSD := 1 },
       { currency1 := "EUR", currency2 := "USD", year := 2023, month := 1,
         rateToUSD := 2, rateFromUSD := 1/2 }]).table := by
  decide

/-- C1 amended: after a merge in which the existing table was loaded
(the `try` branch), the persisted table never contains two records sharing a
(year, month); in the fallback branch (no readable existing table) the same
holds provided the new records have pairwise-distinct periods. -/
theorem C1_amended (cy cm : Int) (existing? : Option (List RateRecord))
    (df : List RateRecord) (h : existing? = none → noDupPeriods df) :
    noDupPeriods (writing_all_file cy cm existing? df).table := by
  cases existing? with
  | some ex => exact noDupPeriods_sortDescYM (noDupPeriods_dedupByPeriod _)
  | none => exact noDupPeriods_sortDescYM (h rfl)

theorem C1_amended_witness :
    noDupPeriods (writing_all_file 2024 3
      (some [{ currency1 := "EUR", currency2 := "USD", year := 2024, month := 2,
               rateToUSD := 1, rateFromUSD := 1 }])
      [{ currency1 := "EUR", currency2 := "USD", year := 2024, month := 3,
         rateToUSD := 2, rateFromUSD := 1/2 }]).table :=
  C1_amended 2024 3
    (some [{ currency1 := "EUR", currency2 := "USD", year := 2024, month := 2,
             rateToUSD := 1, rateFromUSD := 1 }])
    [{ currency1 := "EUR", currency2 := "USD", year := 2024, month := 3,
       rateToUSD := 2, rateFromUSD := 1/2 }]
    (fun h => Option.noConfusion h)

/-! ## C4 — descending order after a merge -/

/-- C4, as stated, is false: the `except` branch of `writing_all_file` sorts
but does not deduplicate, and two records with the same (year, month) can
never be in *strictly* descending order. -/
theorem C4_counterexample :
    ¬ strictDescYM (writing_all_file 2022 9 none
      [{ currency1 := "GBP", currency2 := "USD", year := 2022, month := 7,
         rateToUSD := 1, rateFromUSD := 1 },
       { currency1 := "GBP", currency2 := "USD", year := 2022, month := 7,
         rateToUSD := 3, rateFromUSD := 1/3 }]).table := by
  decide

/-- C4 amended: after a merge in which the existing table was loaded, the
persisted table is strictly descending by year then month; in the fallback
branch the same holds provided the new records have pairwise-distinct
periods (otherwise the order is only non-strictly descending). -/
theorem C4_amended (cy cm : Int) (existing? : Option (List RateRecord))
    (df : List RateRecord) (h : existing? = none → noDupPeriods df) :
    strictDescYM (writing_all_file cy cm existing? df).table := by
  cases existing? with
  | some ex => exact strictDescYM_sortDescYM (noDupPeriods_dedupByPeriod _)
  | none => exact strictDescYM_sortDescYM (h rfl)

theorem C4_amended_witness :
    strictDescYM (writing_all_file 2024 8
      (some [{ currency1 := "JPY", currency2 := "USD", year := 2024, month := 7,
               rateToUSD := 150, rateFromUSD := 1/150 }])
      [{ currency1 := "JPY", currency2 := "USD", year := 2024, month := 8,
         rateToUSD := 145, rateFromUSD := 1/145 }]).table :=
  C4_amended 2024 8
    (some [{ currency1 := "JPY", currency2 := "USD", year := 2024, month := 7,
             rateToUSD := 150, rateFromUSD := 1/150 }])
    [{ currency1 := "JPY", currency2 := "USD", year := 2024, month := 8,
       rateToUSD := 145, rateFromUSD := 1/145 }]
    (fun h => Option.noConfusion h)

/-! ## C2 — the current calendar month's record is replaced, not duplicated -/

/-- C2: if the loaded table has pairwise-distinct periods (the invariant the
merge maintains, and the spec's "at most one such row is expected"), and it
contains a record `e` whose period is the current calendar (year, month),
then the merge drops `e` and keeps the first newly fetched record `n` for
that period: re-running a merge in the same calendar month replaces, rather
than duplicates, the current month's record. -/
theorem C2_current_month_replaced (cy cm : Int) (ex df : List RateRecord)
    (e n : RateRecord)
    (hex : noDupPeriods ex) (he : e ∈ ex) (hke : keyOf e = (cy, cm))
    (hfind : df.find? (fun r => decide (keyOf r = (cy, cm))) = some n)
    (hedf : e ∉ df) :
    e ∉ (writing_all_file cy cm (some ex) df).table ∧
    n ∈ (writing_all_file cy cm (some ex) df).table := by
  have hex2 : ∀ x ∈ removeCurrent cy cm ex, keyOf x ≠ (cy, cm) :=
    keys_removeCurrent_ne cy cm ex hex
  constructor
  · intro hmem
    have : e ∈ dedupByPeriod (removeCurrent cy cm ex ++ df) := mem_sortDescYM.mp hmem
    have : e ∈ removeCurrent cy cm ex ++ df := mem_of_mem_dedupBy _ _ _ this
    rcases List.mem_append.mp this with h | h
    · exact hex2 e h hke
    · exact hedf h
  · have hfind2 : (removeCurrent cy cm ex ++ df).find?
        (fun r => decide (keyOf r = (cy, cm))) = some n := by
      rw [find?_append_of_left_none _ _ (fun x hx => by simpa using hex2 x hx)]
      exact hfind
    exact mem_sortDescYM.mpr
      (find?_mem_dedupBy _ [] (cy, cm) n (List.not_mem_nil _) hfind2)

theorem C2_current_month_replaced_witness :
    { currency1 := "EUR", currency2 := "USD", year := 2024, month := 6,
      rateToUSD := 2, rateFromUSD := (7 : ℚ) } ∉
      (writing_all_file 2024 6
        (some [{ currency1 := "EUR", currency2 := "USD", year := 2024, month := 6,
                 rateToUSD := 2, rateFromUSD := 7 }])
        [{ currency1 := "EUR", currency2 := "USD", year := 2024, month := 6,
           rateToUSD := 3, rateFromUSD := 9 }]).table ∧
    { currency1 := "EUR", currency2 := "USD", year := 2024, month := 6,
      rateToUSD := 3, rateFromUSD := (9 : ℚ) } ∈
      (writing_all_file 2024 6
        (some [{ currency1 := "EUR", currency2 := "USD", year := 2024, month := 6,
                 rateToUSD := 2, rateFromUSD := 7 }])
        [{ currency1 := "EUR", currency2 := "USD", year := 2024, month := 6,
           rateToUSD := 3, rateFromUSD := 9 }]).table :=
  C2_current_month_replaced 2024 6
    [{ currency1 := "EUR", currency2 := "USD", year := 2024, month := 6,
       rateToUSD := 2, rateFromUSD := 7 }]
    [{ currency1 := "EUR", currency2 := "USD", year := 2024, month := 6,
       rateToUSD := 3, rateFromUSD := 9 }]
    _ _ (by decide) (by decide) (by decide) (by decide) (by decide)

/-! ## C3 — on a period collision, the existing row survives -/

/-- C3: when, after the current-month removal, the existing table still has a
record for period `p` (first such record `e`), and the freshly fetched batch
also carries a (distinct) record `n` for `p`, concatenation order plus
keep-first deduplication retains `e` and drops `n`. -/
theorem C3_existing_row_survives (cy cm : Int) (ex df : List RateRecord)
    (p : Int × Int) (e n : RateRecord)
    (hfind : (removeCurrent cy cm ex).find? (fun r => decide (keyOf r = p)) = some e)
    (hn : n ∈ df) (hkn : keyOf n = p) (hne : n ≠ e) :
    e ∈ (writing_all_file cy cm (some ex) df).table ∧
    n ∉ (writing_all_file cy cm (some ex) df).table := by
  have hfind2 : (removeCurrent cy cm ex ++ df).find?
      (fun r => decide (keyOf r = p)) = some e :=
    find?_append_of_left_some _ _ hfind
  have hemem : e ∈ dedupByPeriod (removeCurrent cy cm ex ++ df) :=
    find?_mem_dedupBy _ [] p e (List.not_mem_nil _) hfind2
  have hke : keyOf e = p := by simpa using List.find?_some hfind
  refine ⟨mem_sortDescYM.mpr hemem, fun hmem => ?_⟩
  have hnmem : n ∈ dedupByPeriod (removeCurrent cy cm ex ++ df) :=
    mem_sortDescYM.mp hmem
  have hnd := noDupPeriods_dedupByPeriod (removeCurrent cy cm ex ++ df)
  exact hne (List.inj_on_of_nodup_map hnd hnmem hemem (hkn.trans hke.symm))

theorem C3_existing_row_survives_witness :
    { currency1 := "CHF", currency2 := "USD", year := 2023, month := 4,
      rateToUSD := 2, rateFromUSD := (7 : ℚ) } ∈
      (writing_all_file 2024 1
        (some [{ currency1 := "CHF", currency2 := "USD", year := 2023, month := 4,
                 rateToUSD := 2, rateFromUSD := 7 }])
        [{ currency1 := "CHF", currency2 := "USD", year := 2023, month := 4,
           rateToUSD := 5, rateFromUSD := 9 }]).table ∧
    { currency1 := "CHF", currency2 := "USD", year := 2023, month := 4,
      rateToUSD := 5, rateFromUSD := (9 : ℚ) } ∉
      (writing_all_file 2024 1
        (some [{ currency1 := "CHF", currency2 := "USD", year := 2023, month := 4,
                 rateToUSD := 2, rateFromUSD := 7 }])
        [{ currency1 := "CHF", currency2 := "USD", year := 2023, month := 4,
           rateToUSD := 5, rateFromUSD := 9 }]).table :=
  C3_existing_row_survives 2024 1
    [{ currency1 := "CHF", currency2 := "USD", year := 2023, month := 4,
       rateToUSD := 2, rateFromUSD := 7 }]
    [{ currency1 := "CHF", currency2 := "USD", year := 2023, month := 4,
       rateToUSD := 5, rateFromUSD := 9 }]
    (2023, 4) _ _ (by decide) (by decide) (by decide) (by decide)

/-! ## C5 — the degenerate-rate policy of `main` -/

/-- src/main.py:469-472: `try: fcrate = 1/crate` / `except: fcrate = 0`.
In Python, `1/crate` on a float raises (ZeroDivisionError) exactly when
`crate == 0`; for any nonzero float — negative included — the division
succeeds, so the fallback 0 is taken only at `crate = 0`. -/
def inverseRate (crate : ℚ) : ℚ := if crate = 0 then 0 else 1 / crate

/-- C5 is false as stated: for the parsed rate `r = -2` (an `r ≤ 0`), the code
stores `1/(-2) = -1/2`, not the 0 the claim demands for nonpositive rates. -/
theorem C5_counterexample :
    inverseRate (-2) = -(1/2) ∧ ¬ inverseRate (-2) = 0 := by
  constructor
  · norm_num [inverseRate]
  · norm_num [inverseRate]

/-- C5 amended: `rate_from_base` is the exact reciprocal of the rate whenever
the rate is nonzero (in particular for negative rates), and it is 0 exactly
when the rate is 0. -/
theorem C5_amended (r : ℚ) :
    (r ≠ 0 ∧ inverseRate r * r = 1) ∨ (r = 0 ∧ inverseRate r = 0) := by
  by_cases h : r = 0
  · right
    exact ⟨h, by rw [inverseRate, if_pos h]⟩
  · left
    refine ⟨h, ?_⟩
    rw [inverseRate, if_neg h]
    exact one_div_mul_cancel h

/-! ## The fetch/parse pipeline of `main` -/

/-- A Python exception escaping the parsing loop of `main`
(src/main.py:455-472): `KeyError` from `month_mapping[month]` in
`extract_date`, or `ValueError` from `float(crate)`. -/
inductive ParseAbort where
  | keyErrorMonth (month : String)
  | valueErrorRate (token : String)
  deriving Repr, DecidableEq

/-- The fixed 12-entry month table of `extract_date` (src/main.py:310-323). -/
def month_mapping : List (String × Nat) :=
  [("Jan", 1), ("Feb", 2), ("Mar", 3), ("Apr", 4), ("May", 5), ("Jun", 6),
   ("Jul", 7), ("Aug", 8), ("Sep", 9), ("Oct", 10), ("Nov", 11), ("Dec", 12)]

/-- One iteration of the parsing loop of `main` (src/main.py:455-481) on the
already-split tokens of one fetched line, parameterized by the semantics
`parseFloat` of Python `float(...)` (`none` models a `ValueError`).
Lines splitting into at most one token are skipped (`.ok none`); otherwise
only `lis_text[0]` and `lis_text[1]` are read; `float(crate)` runs before
`extract_date(month, year)`, so a bad rate raises before a bad month does.
The record's `Year` field is the fetch-loop `year` and its `Month` is the
mapped month number; the rates are the parsed value and its
`inverseRate`. -/
def processLine (parseFloat : String → Option ℚ) (curr : String) (year : Int)
    (tokens : List String) : Except ParseAbort (Option RateRecord) :=
  match tokens with
  | [] => .ok none
  | [_] => .ok none
  | m :: rateTok :: _ =>
      match parseFloat rateTok with
      | none => .error (.valueErrorRate rateTok)
      | some crate =>
          match month_mapping.lookup m with
          | none => .error (.keyErrorMonth m)
          | some fmonth =>
              .ok (some { currency1 := curr, currency2 := "USD", year := year,
                          month := (fmonth : Int), rateToUSD := crate,
                          rateFromUSD := inverseRate crate })

/-- The whole `for lis in lists` loop (src/main.py:455-481): records of the
skipped lines are absent, and an exception on any line propagates out of the
loop (no surrounding handler), losing the rest. -/
def processLines (parseFloat : String → Option ℚ) (curr : String) (year : Int) :
    List (List String) → Except ParseAbort (List RateRecord)
  | [] => .ok []
  | t :: ts =>
      match processLine parseFloat curr year t with
      | .error e => .error e
      | .ok none => processLines parseFloat curr year ts
      | .ok (some r) =>
          match processLines parseFloat curr year ts with
          | .error e => .error e
          | .ok rs => .ok (r :: rs)

/-- The retry loop of `main` for one (currency, year) (src/main.py:428-453):
`retry = 5`; each failed attempt sleeps 1 second and decrements the budget;
success breaks out with the fetched lines.  `oracle i` is the outcome of the
`i`-th attempt (`none` = an exception inside the `try`).  Returns the result
together with the number of attempts made and of 1-second sleeps
performed. -/
def retryLoop (oracle : Nat → Option (List (List String))) :
    Nat → Nat → Option (List (List String)) × Nat × Nat
  | 0, _ => (none, 0, 0)
  | budget + 1, i =>
      match oracle i with
      | some lines => (some lines, 1, 0)
      | none =>
          let rec' := retryLoop oracle budget (i + 1)
          (rec'.1, rec'.2.1 + 1, rec'.2.2 + 1)

/-- The `while year <= current_year` loop of `main` (src/main.py:428-482),
over an explicit list of years: a year whose fetch exhausts the retry budget
contributes nothing (`flag` stays 1 → `year += 1; continue`); a fetched year
runs the parsing loop, whose exception aborts the whole run. -/
def yearLoop (oracle : Int → Nat → Option (List (List String)))
    (parseFloat : String → Option ℚ) (curr : String) :
    List Int → Except ParseAbort (List RateRecord)
  | [] => .ok []
  | y :: ys =>
      match (retryLoop (oracle y) 5 0).1 with
      | none => yearLoop oracle parseFloat curr ys
      | some lines =>
          match processLines parseFloat curr y lines with
          | .error e => .error e
          | .ok rs =>
              match yearLoop oracle parseFloat curr ys with
              | .error e => .error e
              | .ok rest => .ok (rs ++ rest)

/-! ## C6 — retry budget, backoff, and skipping a failed year -/

theorem retryLoop_attempts_le :
    ∀ (oracle : Nat → Option (List (List String))) (budget i : Nat),
      (retryLoop oracle budget i).2.1 ≤ budget := by
  intro oracle budget
  induction budget with
  | zero => intro i; simp [retryLoop]
  | succ b ih =>
    intro i
    cases h : oracle i with
    | some lines => simp [retryLoop, h]
    | none => simpa [retryLoop, h] using ih (i + 1)

theorem retryLoop_all_fail :
    ∀ (oracle : Nat → Option (List (List String))) (budget i : Nat),
      (∀ j, i ≤ j → j < i + budget → oracle j = none) →
      retryLoop oracle budget i = (none, budget, budget) := by
  intro oracle budget
  induction budget with
  | zero => intro i _; simp [retryLoop]
  | succ b ih =>
    intro i h
    have h0 : oracle i = none := h i le_rfl (by omega)
    have hrest : retryLoop oracle b (i + 1) = (none, b, b) :=
      ih (i + 1) (fun j hj1 hj2 => h j (by omega) (by omega))
    simp [retryLoop, h0, hrest]

/-- C6: for a (currency, year) whose every attempt fails, the fetcher makes
exactly its budget of 5 attempts (and never more than 5 on any input),
sleeps the fixed 1-second backoff once per failure (5 sleeps), signals
failure with no lines, and the year loop skips that year and continues
unchanged with the remaining years. -/
theorem C6_retry_and_skip (oracle : Int → Nat → Option (List (List String)))
    (parseFloat : String → Option ℚ) (curr : String) (y : Int) (ys : List Int)
    (hfail : ∀ i, i < 5 → oracle y i = none) :
    (∀ orc : Nat → Option (List (List String)), (retryLoop orc 5 0).2.1 ≤ 5) ∧
    (retryLoop (oracle y) 5 0).1 = none ∧
    (retryLoop (oracle y) 5 0).2.1 = 5 ∧
    (retryLoop (oracle y) 5 0).2.2 = 5 ∧
    yearLoop oracle parseFloat curr (y :: ys) = yearLoop oracle parseFloat curr ys := by
  have hall : retryLoop (oracle y) 5 0 = (none, 5, 5) :=
    retryLoop_all_fail (oracle y) 5 0 (fun j _ hj => hfail j (by omega))
  refine ⟨fun orc => retryLoop_attempts_le orc 5 0, ?_, ?_, ?_, ?_⟩
  · rw [hall]
  · rw [hall]
  · rw [hall]
  · simp [yearLoop, hall]

theorem C6_retry_and_skip_witness :
    ((∀ orc : Nat → Option (List (List String)), (retryLoop orc 5 0).2.1 ≤ 5) ∧
     (retryLoop ((fun _ _ => none) (2020 : Int)) 5 0).1 = none ∧
     (retryLoop ((fun _ _ => none) (2020 : Int)) 5 0).2.1 = 5 ∧
     (retryLoop ((fun _ _ => none) (2020 : Int)) 5 0).2.2 = 5 ∧
     yearLoop (fun _ _ => none) (fun _ => none) "EUR" [2020, 2021] =
       yearLoop (fun _ _ => none) (fun _ => none) "EUR" [2021]) :=
  C6_retry_and_skip (fun _ _ => none) (fun _ => none) "EUR" 2020 [2021]
    (fun _ _ => rfl)

/-! ## C10 — malformed fetched lines abort the run -/

theorem processLines_error_of_mem :
    ∀ (parseFloat : String → Option ℚ) (curr : String) (year : Int)
      (pre post : List (List String)) (t : List String) (e : ParseAbort),
      processLine parseFloat curr year t = .error e →
      ∃ e', processLines parseFloat curr year (pre ++ t :: post) = .error e' := by
  intro parseFloat curr year pre
  induction pre with
  | nil =>
    intro post t e ht
    exact ⟨e, by simp [processLines, ht]⟩
  | cons q qs ih =>
    intro post t e ht
    rcases ih post t e ht with ⟨e', he'⟩
    cases hq : processLine parseFloat curr year q with
    | error e0 => exact ⟨e0, by simp [processLines, hq]⟩
    | ok r? =>
      cases r? with
      | none => exact ⟨e', by simpa [processLines, hq] using he'⟩
      | some r => exact ⟨e', by simp [processLines, hq, he']⟩

/-- C10: a fetched line with two or more tokens is parsed from its first two
tokens only (any further tokens are ignored, the line is not discarded), and
when the first token is not a month abbreviation or the second does not
parse as a float, the loop iteration raises; the exception escapes the
parsing loop — wherever such a line sits, the whole batch becomes an error
rather than a record list with that line dropped. -/
theorem C10_malformed_line_aborts (parseFloat : String → Option ℚ) (curr : String)
    (year : Int) (t1 t2 : String) (extra extra' : List String)
    (pre post : List (List String))
    (hbad : month_mapping.lookup t1 = none ∨ parseFloat t2 = none) :
    processLine parseFloat curr year (t1 :: t2 :: extra) =
      processLine parseFloat curr year (t1 :: t2 :: extra') ∧
    (∃ e, processLine parseFloat curr year (t1 :: t2 :: extra) = .error e) ∧
    (∃ e, processLines parseFloat curr year
        (pre ++ (t1 :: t2 :: extra) :: post) = .error e) := by
  have hline : ∃ e, processLine parseFloat curr year (t1 :: t2 :: extra) = .error e := by
    cases hf : parseFloat t2 with
    | none => exact ⟨.valueErrorRate t2, by simp [processLine, hf]⟩
    | some crate =>
      rcases hbad with hm | hp
      · exact ⟨.keyErrorMonth t1, by simp [processLine, hf, hm]⟩
      · exact absurd hf (hp ▸ fun h => Option.noConfusion h)
  refine ⟨rfl, hline, ?_⟩
  rcases hline with ⟨e, he⟩
  exact processLines_error_of_mem parseFloat curr year pre post _ e he

theorem C10_malformed_line_aborts_witness :
    (processLine (fun s => if s = "1.10" then some ((11 : ℚ)/10) else none)
        "EUR" 2023 ["Foo", "1.10"] =
      processLine (fun s => if s = "1.10" then some ((11 : ℚ)/10) else none)
        "EUR" 2023 ["Foo", "1.10", "junk"]) ∧
    (∃ e, processLine (fun s => if s = "1.10" then some ((11 : ℚ)/10) else none)
        "EUR" 2023 ["Foo", "1.10"] = .error e) ∧
    (∃ e, processLines (fun s => if s = "1.10" then some ((11 : ℚ)/10) else none)
        "EUR" 2023 ([["Jan", "1.10"]] ++ ["Foo", "1.10"] :: [["Feb", "1.10"]]) =
        .error e) :=
  C10_malformed_line_aborts (fun s => if s = "1.10" then some ((11 : ℚ)/10) else none)
    "EUR" 2023 ("Foo") ("1.10") [] ["junk"] [["Jan", "1.10"]] [["Feb", "1.10"]]
    (Or.inl rfl)

/-! ## C9 — the fetch-progress update leaves unfetched currencies alone -/

/-- A row of the `Inputs.xlsx` tracking table: at least `Initial Currency`
and `Fetched Year` (src/main.py:394-399). -/
structure InputRow where
  initialCurrency : String
  fetchedYear : Int
  deriving Repr, DecidableEq

/-- Model of `update_input_file(input_df, months, years)` (src/main.py:391-403): for
each row, look its `Initial Currency` up in the `years` dict; on a hit set
`Fetched Year` to the recorded value, on a `KeyError` the bare `except: pass`
leaves the row untouched.  The `months` argument is accepted and never
used, as in the source. -/
def update_input_file (input_df : List InputRow)
    (months years : List (String × Int)) : List InputRow :=
  input_df.map fun row =>
    match years.lookup row.initialCurrency with
    | some y => { row with fetchedYear := y }
    | none => row

/-- The guarded call site in `main` (src/main.py:492-494):
`if len(max_years)==0 or len(max_month)==0: return` — when no currency
produced data the progress table is not rewritten (`none`); otherwise it is
rewritten with `update_input_file`'s output. -/
def progressUpdate (input_df : List InputRow)
    (maxMonth maxYears : List (String × Int)) : Option (List InputRow) :=
  if maxYears.isEmpty ∨ maxMonth.isEmpty then none
  else some (update_input_file input_df maxMonth maxYears)

/-- C9: a tracking row whose currency produced no data this run (its currency
is absent from the `years` map) is carried into the rewritten table
unchanged, at its own position; and when no currency at all produced data,
the progress table is not rewritten. -/
theorem C9_progress_frame (input_df : List InputRow)
    (months years maxMonth : List (String × Int)) (i : Nat)
    (hi : i < input_df.length)
    (hmiss : years.lookup (input_df.get ⟨i, hi⟩).initialCurrency = none) :
    (update_input_file input_df months years)[i]? =
      some (input_df.get ⟨i, hi⟩) ∧
    progressUpdate input_df maxMonth [] = none := by
  constructor
  · have hmiss' : List.lookup input_df[i].initialCurrency years = none := hmiss
    rw [update_input_file, List.getElem?_map,
      List.getElem?_eq_getElem hi]
    simp [List.get_eq_getElem, hmiss']
  · simp [progressUpdate]

theorem C9_progress_frame_witness :
    (update_input_file
        [{ initialCurrency := "EUR", fetchedYear := 2019 },
         { initialCurrency := "GBP", fetchedYear := 2021 }]
        [("GBP", 8)] [("GBP", 2024)])[0]? =
      some ({ initialCurrency := "EUR", fetchedYear := 2019 } : InputRow) ∧
    progressUpdate
      [{ initialCurrency := "EUR", fetchedYear := 2019 },
       { initialCurrency := "GBP", fetchedYear := 2021 }]
      [("GBP", 8)] [] = none :=
  C9_progress_frame
    [{ initialCurrency := "EUR", fetchedYear := 2019 },
     { initialCurrency := "GBP", fetchedYear := 2021 }]
    [("GBP", 8)] [("GBP", 2024)] [("GBP", 8)] 0 (by decide) (by decide)

/-! ## C8 — the backup snapshot and its file name -/

theorem le_foldl_max :
    ∀ (xs : List Int) (x : Int), x ≤ xs.foldl max x ∧
      ∀ y ∈ xs, y ≤ xs.foldl max x := by
  intro xs
  induction xs with
  | nil => intro x; simp
  | cons z zs ih =>
    intro x
    refine ⟨le_trans (le_max_left x z) (ih (max x z)).1, ?_⟩
    intro y hy
    rcases List.mem_cons.mp hy with rfl | hy'
    · exact le_trans (le_max_right x y) (ih (max x y)).1
    · exact (ih (max x z)).2 y hy'

theorem foldl_max_mem :
    ∀ (xs : List Int) (x : Int), xs.foldl max x = x ∨ xs.foldl max x ∈ xs := by
  intro xs
  induction xs with
  | nil => intro x; simp
  | cons z zs ih =>
    intro x
    rcases ih (max x z) with h | h
    · rcases max_choice x z with hm | hm
      · exact Or.inl (by rw [List.foldl_cons, h, hm])
      · exact Or.inr (by rw [List.foldl_cons, h, hm]; exact List.mem_cons_self z zs)
    · exact Or.inr (List.mem_cons_of_mem z h)

theorem listMax_mem {xs : List Int} (h : xs ≠ []) : listMax xs ∈ xs := by
  cases xs with
  | nil => exact absurd rfl h
  | cons x ys =>
    show ys.foldl max x ∈ x :: ys
    rcases foldl_max_mem ys x with h' | h'
    · rw [h']; exact List.mem_cons_self x ys
    · exact List.mem_cons_of_mem x h'

theorem le_listMax {xs : List Int} (y : Int) (hy : y ∈ xs) : y ≤ listMax xs := by
  cases xs with
  | nil => simp at hy
  | cons x ys =>
    rcases List.mem_cons.mp hy with rfl | hy'
    · exact (le_foldl_max ys y).1
    · exact (le_foldl_max ys x).2 y hy'

/-- C8, as stated, is false about the file name: `writing_all_file` names the
backup from `max(df['Month'])` and `max(df['Year'])` computed independently
(src/main.py:378-380), so for a batch spanning December 2022 and January
2023 the name pairs month 12 with year 2023 — a (month, year) not present in
the newly fetched records at all. -/
theorem C8_counterexample :
    (writing_all_file 2023 5
      (some [{ currency1 := "EUR", currency2 := "USD", year := 2021, month := 3,
               rateToUSD := 1, rateFromUSD := 1 }])
      [{ currency1 := "EUR", currency2 := "USD", year := 2022, month := 12,
         rateToUSD := 1, rateFromUSD := 1 },
       { currency1 := "EUR", currency2 := "USD", year := 2023, month := 1,
         rateToUSD := 2, rateFromUSD := 2 }]).backupName = (12, 2023) ∧
    ((12 : Int), (2023 : Int)) ∉
      ([{ currency1 := "EUR", currency2 := "USD", year := 2022, month := 12,
          rateToUSD := 1, rateFromUSD := 1 },
        { currency1 := "EUR", currency2 := "USD", year := 2023, month := 1,
          rateToUSD := 2, rateFromUSD := 2 }] :
        List RateRecord).map (fun r => (r.month, r.year)) := by
  decide

/-- C8 amended: the backup snapshot's content is exactly the existing table
after the current-calendar-month removal and before the new records are
appended (a sublist of the loaded table, containing every loaded row whose
period is not the current one and no row with the current period); its file
name is formed from the maximum month and the maximum year of the new
records computed independently — a pair that need not occur in them. -/
theorem C8_amended (cy cm : Int) (ex df : List RateRecord)
    (hdf : df ≠ []) (hex : noDupPeriods ex) :
    ((writing_all_file cy cm (some ex) df).backup).Sublist ex ∧
    (∀ r ∈ (writing_all_file cy cm (some ex) df).backup, keyOf r ≠ (cy, cm)) ∧
    (∀ r ∈ ex, keyOf r ≠ (cy, cm) →
        r ∈ (writing_all_file cy cm (some ex) df).backup) ∧
    (writing_all_file cy cm (some ex) df).backupName.1 ∈ df.map (·.month) ∧
    (∀ m ∈ df.map (·.month), m ≤ (writing_all_file cy cm (some ex) df).backupName.1) ∧
    (writing_all_file cy cm (some ex) df).backupName.2 ∈ df.map (·.year) ∧
    (∀ y ∈ df.map (·.year), y ≤ (writing_all_file cy cm (some ex) df).backupName.2) := by
  have hdfm : df.map (·.month) ≠ [] := by
    intro h; exact hdf (List.map_eq_nil_iff.mp h)
  have hdfy : df.map (·.year) ≠ [] := by
    intro h; exact hdf (List.map_eq_nil_iff.mp h)
  exact ⟨removeCurrent_sublist cy cm ex,
    keys_removeCurrent_ne cy cm ex hex,
    fun r hr hk => mem_removeCurrent_of_key_ne cy cm ex r hr hk,
    listMax_mem hdfm, fun m hm => le_listMax m hm,
    listMax_mem hdfy, fun y hy => le_listMax y hy⟩

theorem C8_amended_witness :
    ((writing_all_file 2024 2
      (some [{ currency1 := "INR", currency2 := "USD", year := 2024, month := 2,
               rateToUSD := 83, rateFromUSD := 1 },
             { currency1 := "INR", currency2 := "USD", year := 2024, month := 1,
               rateToUSD := 82, rateFromUSD := 1 }])
      [{ currency1 := "INR", currency2 := "USD", year := 2024, month := 2,
         rateToUSD := 84, rateFromUSD := 1 }]).backup).Sublist
        [{ currency1 := "INR", currency2 := "USD", year := 2024, month := 2,
           rateToUSD := 83, rateFromUSD := 1 },
         { currency1 := "INR", currency2 := "USD", year := 2024, month := 1,
           rateToUSD := 82, rateFromUSD := 1 }] ∧
    (∀ r ∈ (writing_all_file 2024 2
      (some [{ currency1 := "INR", currency2 := "USD", year := 2024, month := 2,
               rateToUSD := 83, rateFromUSD := 1 },
             { currency1 := "INR", currency2 := "USD", year := 2024, month := 1,
               rateToUSD := 82, rateFromUSD := 1 }])
      [{ currency1 := "INR", currency2 := "USD", year := 2024, month := 2,
         rateToUSD := 84, rateFromUSD := 1 }]).backup,
        keyOf r ≠ (2024, 2)) ∧
    (∀ r ∈ [{ currency1 := "INR", currency2 := "USD", year := 2024, month := 2,
              rateToUSD := 83, rateFromUSD := (1 : ℚ) },
            { currency1 := "INR", currency2 := "USD", year := 2024, month := 1,
              rateToUSD := 82, rateFromUSD := 1 }], keyOf r ≠ ((2024 : Int), (2 : Int)) →
        r ∈ (writing_all_file 2024 2
          (some [{ currency1 := "INR", currency2 := "USD", year := 2024, month := 2,
                   rateToUSD := 83, rateFromUSD := 1 },
                 { currency1 := "INR", currency2 := "USD", year := 2024, month := 1,
                   rateToUSD := 82, rateFromUSD := 1 }])
          [{ currency1 := "INR", currency2 := "USD", year := 2024, month := 2,
             rateToUSD := 84, rateFromUSD := 1 }]).backup) ∧
    (writing_all_file 2024 2
      (some [{ currency1 := "INR", currency2 := "USD", year := 2024, month := 2,
               rateToUSD := 83, rateFromUSD := 1 },
             { currency1 := "INR", currency2 := "USD", year := 2024, month := 1,
               rateToUSD := 82, rateFromUSD := 1 }])
      [{ currency1 := "INR", currency2 := "USD", year := 2024, month := 2,
         rateToUSD := 84, rateFromUSD := 1 }]).backupName.1 ∈
      ([{ currency1 := "INR", currency2 := "USD", year := 2024, month := 2,
          rateToUSD := 84, rateFromUSD := 1 }] : List RateRecord).map (·.month) ∧
    (∀ m ∈ ([{ currency1 := "INR", currency2 := "USD", year := 2024, month := 2,
               rateToUSD := 84, rateFromUSD := (1 : ℚ) }] : List RateRecord).map (·.month),
        m ≤ (writing_all_file 2024 2
          (some [{ currency1 := "INR", currency2 := "USD", year := 2024, month := 2,
                   rateToUSD := 83, rateFromUSD := 1 },
                 { currency1 := "INR", currency2 := "USD", year := 2024, month := 1,
                   rateToUSD := 82, rateFromUSD := 1 }])
          [{ currency1 := "INR", currency2 := "USD", year := 2024, month := 2,
             rateToUSD := 84, rateFromUSD := 1 }]).backupName.1) ∧
    (writing_all_file 2024 2
      (some [{ currency1 := "INR", currency2 := "USD", year := 2024, month := 2,
               rateToUSD := 83, rateFromUSD := 1 },
             { currency1 := "INR", currency2 := "USD", year := 2024, month := 1,
               rateToUSD := 82, rateFromUSD := 1 }])
      [{ currency1 := "INR", currency2 := "USD", year := 2024, month := 2,
         rateToUSD := 84, rateFromUSD := 1 }]).backupName.2 ∈
      ([{ currency1 := "INR", currency2 := "USD", year := 2024, month := 2,
          rateToUSD := 84, rateFromUSD := 1 }] : List RateRecord).map (·.year) ∧
    (∀ y ∈ ([{ currency1 := "INR", currency2 := "USD", year := 2024, month := 2,
               rateToUSD := 84, rateFromUSD := (1 : ℚ) }] : List RateRecord).map (·.year),
        y ≤ (writing_all_file 2024 2
          (some [{ currency1 := "INR", currency2 := "USD", year := 2024, month := 2,
                   rateToUSD := 83, rateFromUSD := 1 },
                 { currency1 := "INR", currency2 := "USD", year := 2024, month := 1,
                   rateToUSD := 82, rateFromUSD := 1 }])
          [{ currency1 := "INR", currency2 := "USD", year := 2024, month := 2,
             rateToUSD := 84, rateFromUSD := 1 }]).backupName.2) :=
  C8_amended 2024 2
    [{ currency1 := "INR", currency2 := "USD", year := 2024, month := 2,
       rateToUSD := 83, rateFromUSD := 1 },
     { currency1 := "INR", currency2 := "USD", year := 2024, month := 1,
       rateToUSD := 82, rateFromUSD := 1 }]
    [{ currency1 := "INR", currency2 := "USD", year := 2024, month := 2,
       rateToUSD := 84, rateFromUSD := 1 }]
    (by decide) (by decide)

/-! ## C7 — unit-of-measure price conversion (`convert_price_for_uom`) -/

/-- A priced line item as read by `convert_price_for_uom`
(src/main.py:230-262): its unit pair, `Initial Price`, and the derived
`UOM Converted Price` column (`none` before the column is filled). -/
structure PricedItem where
  initialUnit : String
  finalUnit : String
  initialPrice : ℚ
  uomConvertedPrice : Option ℚ
  deriving Repr, DecidableEq

/-- Python `str.lower()` on a unit key, modelled on the character list (the
same ASCII case folding as `Char.toLower`). -/
def pyLower (s : String) : String := String.mk (s.data.map Char.toLower)

/-- Model of `df[["Initial Unit", "Final Unit"]].drop_duplicates()` (src/main.py:241):
the distinct (initial, final) unit pairs in first-occurrence order. -/
def uniqueUnitPairsAux (seen : List (String × String)) :
    List PricedItem → List (String × String)
  | [] => []
  | r :: rs =>
      if (r.initialUnit, r.finalUnit) ∈ seen then uniqueUnitPairsAux seen rs
      else (r.initialUnit, r.finalUnit) ::
        uniqueUnitPairsAux ((r.initialUnit, r.finalUnit) :: seen) rs

def uniqueUnitPairs (items : List PricedItem) : List (String × String) :=
  uniqueUnitPairsAux [] items

/-- One pass of the combo loop of `convert_price_for_uom`
(src/main.py:243-260) for the pair (`iu`, `fu`), over the current state of
the table.  `rates` is `uom_config["mass_conversion_rates"]`, looked up at
the lowercased unit; a missing key is Python's `KeyError`, naming the unit,
which aborts the whole batch (the initial unit is looked up first).
The final pandas statement
`df.loc[mask, "UOM Converted Price"] = temp_df.loc[temp_df[...] != NameError]`
updates exactly the masked rows: the elementwise comparison of the float
column with the class object `NameError` is `True` for every entry (floats
and NaN alike), so the row filter keeps all of `temp_df`, and assigning a
DataFrame through a (row-mask, single-column) `.loc` aligns the right-hand
frame's matching column onto the masked rows only, leaving every other row
of the column unmodified.  On the masked rows `temp_df` holds
`Initial Price * rate(initial) / rate(final)`. -/
def uomPass (rates : List (String × ℚ)) (iu fu : String)
    (items : List PricedItem) : Except String (List PricedItem) :=
  match rates.lookup (pyLower iu) with
  | none => .error (pyLower iu)
  | some toSI =>
      match rates.lookup (pyLower fu) with
      | none => .error (pyLower fu)
      | some toFinal =>
          .ok (items.map fun r =>
            if r.initialUnit = iu ∧ r.finalUnit = fu then
              { r with
                  uomConvertedPrice := some (r.initialPrice * toSI / toFinal) }
            else r)

/-- Model of `convert_price_for_uom(df)` (src/main.py:230-262): iterate the passes
over the distinct unit pairs of the table. -/
def convert_price_for_uom (rates : List (String × ℚ))
    (items : List PricedItem) : Except String (List PricedItem) :=
  (uniqueUnitPairs items).foldlM (fun acc p => uomPass rates p.1 p.2 acc) items

/-- The net effect of `convert_price_for_uom` on one row, per the source
formula: `UOM Converted Price = Initial Price * rate(initial) / rate(final)`
at the row's own units. -/
def updRow (rates : List (String × ℚ)) (r : PricedItem) : PricedItem :=
  { r with
      uomConvertedPrice :=
        some (r.initialPrice * ((rates.lookup (pyLower r.initialUnit)).getD 0) /
          ((rates.lookup (pyLower r.finalUnit)).getD 0)) }

/-- The cumulative effect of the passes for a set of unit pairs. -/
def applyCombos (rates : List (String × ℚ)) (combos : List (String × String))
    (r : PricedItem) : PricedItem :=
  if (r.initialUnit, r.finalUnit) ∈ combos then updRow rates r else r

theorem updRow_initialUnit (rates : List (String × ℚ)) (r : PricedItem) :
    (updRow rates r).initialUnit = r.initialUnit := rfl

theorem updRow_finalUnit (rates : List (String × ℚ)) (r : PricedItem) :
    (updRow rates r).finalUnit = r.finalUnit := rfl

theorem updRow_idem (rates : List (String × ℚ)) (r : PricedItem) :
    updRow rates (updRow rates r) = updRow rates r := rfl

theorem uomPass_ok (rates : List (String × ℚ)) (iu fu : String)
    (items : List PricedItem) {a b : ℚ}
    (h1 : rates.lookup (pyLower iu) = some a)
    (h2 : rates.lookup (pyLower fu) = some b) :
    uomPass rates iu fu items = .ok (items.map fun r =>
      if r.initialUnit = iu ∧ r.finalUnit = fu then updRow rates r else r) := by
  have hfun : (fun r : PricedItem =>
      if r.initialUnit = iu ∧ r.finalUnit = fu then
        { r with uomConvertedPrice := some (r.initialPrice * a / b) }
      else r) =
      (fun r : PricedItem =>
        if r.initialUnit = iu ∧ r.finalUnit = fu then updRow rates r else r) := by
    funext r
    by_cases hc : r.initialUnit = iu ∧ r.finalUnit = fu
    · simp only [if_pos hc, updRow, hc.1, hc.2, h1, h2, Option.getD_some]
    · simp only [if_neg hc]
  simp only [uomPass, h1, h2, hfun]

theorem foldlM_uomPass_ok (rates : List (String × ℚ)) :
    ∀ (combos : List (String × String)) (acc : List PricedItem),
      (∀ p ∈ combos, (rates.lookup (pyLower p.1)).isSome ∧
                     (rates.lookup (pyLower p.2)).isSome) →
      combos.foldlM (fun acc p => uomPass rates p.1 p.2 acc) acc =
        .ok (acc.map (applyCombos rates combos)) := by
  intro combos
  induction combos with
  | nil =>
    intro acc _
    show Except.ok acc = .ok (acc.map (applyCombos rates []))
    have hid : acc.map (applyCombos rates []) = acc := by
      have h1 : applyCombos rates [] = id := funext fun r => by simp [applyCombos]
      rw [h1, List.map_id]
    rw [hid]
  | cons p ps ih =>
    intro acc h
    obtain ⟨h1s, h2s⟩ := h p (List.mem_cons_self p ps)
    obtain ⟨a, ha⟩ := Option.isSome_iff_exists.mp h1s
    obtain ⟨b, hb⟩ := Option.isSome_iff_exists.mp h2s
    have hcomp : (applyCombos rates ps) ∘
        (fun r : PricedItem =>
          if r.initialUnit = p.1 ∧ r.finalUnit = p.2 then updRow rates r else r) =
        applyCombos rates (p :: ps) := by
      funext r
      by_cases hc : r.initialUnit = p.1 ∧ r.finalUnit = p.2
      · have hpair : (r.initialUnit, r.finalUnit) = p := by rw [hc.1, hc.2]
        have hrhs : applyCombos rates (p :: ps) r = updRow rates r := by
          unfold applyCombos
          rw [if_pos (hpair ▸ List.mem_cons_self p ps)]
        have hlhs : applyCombos rates ps (updRow rates r) = updRow rates r := by
          unfold applyCombos
          by_cases hmem : p ∈ ps
          · have hin : ((updRow rates r).initialUnit, (updRow rates r).finalUnit) ∈ ps := by
              rw [updRow_initialUnit, updRow_finalUnit, hpair]; exact hmem
            rw [if_pos hin, updRow_idem]
          · have hin : ((updRow rates r).initialUnit, (updRow rates r).finalUnit) ∉ ps := by
              rw [updRow_initialUnit, updRow_finalUnit, hpair]; exact hmem
            rw [if_neg hin]
        simp only [Function.comp_apply, if_pos hc, hlhs, hrhs]
      · have hpair : (r.initialUnit, r.finalUnit) ≠ p := fun hp =>
          hc ⟨congrArg Prod.fst hp, congrArg Prod.snd hp⟩
        have hiff : ((r.initialUnit, r.finalUnit) ∈ p :: ps) ↔
            ((r.initialUnit, r.finalUnit) ∈ ps) := by
          simp [List.mem_cons, hpair]
        simp only [Function.comp_apply, if_neg hc]
        unfold applyCombos
        by_cases hmem : (r.initialUnit, r.finalUnit) ∈ ps
        · rw [if_pos hmem, if_pos (hiff.mpr hmem)]
        · rw [if_neg hmem, if_neg (fun hx => hmem (hiff.mp hx))]
    rw [List.foldlM_cons, uomPass_ok rates p.1 p.2 acc ha hb]
    show (ps.foldlM (fun acc p => uomPass rates p.1 p.2 acc)
        (acc.map fun r =>
          if r.initialUnit = p.1 ∧ r.finalUnit = p.2 then updRow rates r else r)) =
      .ok (acc.map (applyCombos rates (p :: ps)))
    rw [ih _ (fun q hq => h q (List.mem_cons_of_mem p hq)), List.map_map, hcomp]

theorem pair_mem_uniqueUnitPairsAux :
    ∀ (l : List PricedItem) (seen : List (String × String)) (r : PricedItem),
      r ∈ l → (r.initialUnit, r.finalUnit) ∈ seen ∨
        (r.initialUnit, r.finalUnit) ∈ uniqueUnitPairsAux seen l := by
  intro l
  induction l with
  | nil => intro seen r h; simp at h
  | cons x xs ih =>
    intro seen r hr
    by_cases hx : (x.initialUnit, x.finalUnit) ∈ seen
    · simp only [uniqueUnitPairsAux, if_pos hx]
      rcases List.mem_cons.mp hr with rfl | hr'
      · exact Or.inl hx
      · exact ih seen r hr'
    · simp only [uniqueUnitPairsAux, if_neg hx]
      rcases List.mem_cons.mp hr with rfl | hr'
      · exact Or.inr (List.mem_cons_self _ _)
      · rcases ih ((x.initialUnit, x.finalUnit) :: seen) r hr' with h | h
        · rcases List.mem_cons.mp h with he | hs
          · exact Or.inr (he ▸ List.mem_cons_self _ _)
          · exact Or.inl hs
        · exact Or.inr (List.mem_cons_of_mem _ h)

theorem uniqueUnitPairsAux_from_items :
    ∀ (l : List PricedItem) (seen : List (String × String)) (p : String × String),
      p ∈ uniqueUnitPairsAux seen l → ∃ r ∈ l, p = (r.initialUnit, r.finalUnit) := by
  intro l
  induction l with
  | nil => intro seen p h; simp [uniqueUnitPairsAux] at h
  | cons x xs ih =>
    intro seen p hp
    by_cases hx : (x.initialUnit, x.finalUnit) ∈ seen
    · simp only [uniqueUnitPairsAux, if_pos hx] at hp
      obtain ⟨r, hr, he⟩ := ih seen p hp
      exact ⟨r, List.mem_cons_of_mem x hr, he⟩
    · simp only [uniqueUnitPairsAux, if_neg hx, List.mem_cons] at hp
      rcases hp with rfl | hp'
      · exact ⟨x, List.mem_cons_self x xs, rfl⟩
      · obtain ⟨r, hr, he⟩ := ih _ p hp'
        exact ⟨r, List.mem_cons_of_mem x hr, he⟩

/-- C7: when every unit appearing in the table has a conversion factor, the
batch succeeds and every row ends with
`uom_converted_price = initial_price * (factor(initial_unit) / factor(final_unit))`
at its own units; and within any single pass for a pair (iu, fu), a row not
matching that pair is carried through that pass unmodified, at its own
position. -/
theorem C7_uom_conversion (rates : List (String × ℚ)) (items : List PricedItem)
    (hpres : ∀ r ∈ items, (rates.lookup (pyLower r.initialUnit)).isSome ∧
                          (rates.lookup (pyLower r.finalUnit)).isSome) :
    convert_price_for_uom rates items = .ok (items.map (updRow rates)) ∧
    ∀ (iu fu : String) (out : List PricedItem),
      uomPass rates iu fu items = .ok out →
      ∀ (i : Nat) (hi : i < items.length),
        ¬((items.get ⟨i, hi⟩).initialUnit = iu ∧
          (items.get ⟨i, hi⟩).finalUnit = fu) →
        out[i]? = some (items.get ⟨i, hi⟩) := by
  constructor
  · have hc : ∀ p ∈ uniqueUnitPairs items,
        (rates.lookup (pyLower p.1)).isSome ∧ (rates.lookup (pyLower p.2)).isSome := by
      intro p hp
      obtain ⟨r, hr, rfl⟩ := uniqueUnitPairsAux_from_items items [] p hp
      exact hpres r hr
    rw [convert_price_for_uom, foldlM_uomPass_ok rates (uniqueUnitPairs items) items hc]
    congr 1
    apply List.map_congr_left
    intro r hr
    have hmem : (r.initialUnit, r.finalUnit) ∈ uniqueUnitPairs items := by
      rcases pair_mem_uniqueUnitPairsAux items [] r hr with h | h
      · simp at h
      · exact h
    unfold applyCombos
    rw [if_pos hmem]
  · intro iu fu out hok i hi hnomatch
    cases h1 : rates.lookup (pyLower iu) with
    | none => rw [uomPass, h1] at hok; exact Except.noConfusion hok
    | some a =>
      cases h2 : rates.lookup (pyLower fu) with
      | none => rw [uomPass, h1, h2] at hok; exact Except.noConfusion hok
      | some b =>
        rw [uomPass_ok rates iu fu items h1 h2] at hok
        have hout : out = items.map fun r =>
            if r.initialUnit = iu ∧ r.finalUnit = fu then updRow rates r else r :=
          (Except.ok.injEq _ _).mp hok.symm
        have hnm : ¬(items[i].initialUnit = iu ∧ items[i].finalUnit = fu) := hnomatch
        rw [hout, List.getElem?_map, List.getElem?_eq_getElem hi]
        simp only [Option.map_some', List.get_eq_getElem]
        rw [if_neg hnm]

theorem C7_uom_conversion_witness :
    convert_price_for_uom [("kg", 1), ("lb", 453592/1000000)]
      [{ initialUnit := "kg", finalUnit := "lb", initialPrice := 10,
         uomConvertedPrice := none }] =
      .ok [{ initialUnit := "kg", finalUnit := "lb", initialPrice := 10,
             uomConvertedPrice := some (10 * 1 / (453592/1000000)) }] ∧
    |(10 * 1 / (453592/1000000 : ℚ)) - 220462/10000| < 1/10000 := by
  have hk : (([("kg", (1 : ℚ)), ("lb", 453592/1000000)]).lookup (pyLower ("kg"))) =
      some 1 := rfl
  have hl : (([("kg", (1 : ℚ)), ("lb", 453592/1000000)]).lookup (pyLower ("lb"))) =
      some (453592/1000000) := rfl
  constructor
  · have h := (C7_uom_conversion [("kg", 1), ("lb", 453592/1000000)]
      [{ initialUnit := "kg", finalUnit := "lb", initialPrice := 10,
         uomConvertedPrice := none }]
      (fun r hr => by
        rw [List.mem_singleton] at hr
        subst hr
        exact ⟨rfl, rfl⟩)).1
    rw [h]
    simp only [List.map_cons, List.map_nil, updRow, hk, hl, Option.getD_some]
  · rw [abs_sub_lt_iff]
    constructor <;> norm_num
